import Mathlib

/-!
Verification of the POTA Overpass cache server (`server.py`, `pota_csv_fetcher.py`).

The Python program manipulates JSON-like dictionaries.  We embed the relevant
shapes shallowly:

* Python dicts of string tags become association lists `List (String × String)`
  with unique keys in practice; `dictGet` is `d.get(k)` / `d[k]` (first match)
  and `dictSet` is `d[k] = v` (replace in place, else append), matching the
  insertion-order semantics of Python dicts.
* Overpass elements become a structure with `Option`-valued fields, one field
  per dictionary key the code reads (`type`, `id`, `lat`, `lon`, `tags`,
  `bounds`, `geometry`, `members`); a `none` field models an absent key.
* Coordinates are embedded as `Rat`.  Every coordinate literal appearing in
  the claims is exactly representable as a double, so order comparisons and
  equalities coincide with the Python float semantics on these inputs.
* Code that can raise (`element['tags']` on a dict without the key) returns
  `Except String _`; the error string names the Python exception.
-/

deriving instance DecidableEq for Except

/-- Python ordered-dict lookup `d.get(k)` on an association list (keys are
unique in any dict the program builds; lookup takes the first match). -/
def dictGet : List (String × String) → String → Option String
  | [], _ => none
  | (k2, v) :: rest, k => if k2 = k then some v else dictGet rest k

/-- Python ordered-dict update `d[k] = v`: replace the value in place when the
key is present (keeping its position), otherwise append the new pair. -/
def dictSet : List (String × String) → String → String → List (String × String)
  | [], k, v => [(k, v)]
  | (k2, v2) :: rest, k, v =>
    if k2 = k then (k, v) :: rest else (k2, v2) :: dictSet rest k v

/-- One point of a way/relation `geometry` array (server.py lines 111-115,
145-151): a dict with optional `lat`, `lon` and `tags` keys. -/
structure GeomPoint where
  lat : Option Rat
  lon : Option Rat
  tags : Option (List (String × String))
deriving DecidableEq

/-- One entry of a relation's `members` array (server.py lines 117-122):
a dict with optional `type`, `ref`, `role` and `tags` keys. -/
structure Member where
  type : Option String
  ref : Option Int
  role : Option String
  tags : Option (List (String × String))
deriving DecidableEq

/-- The `bounds` rectangle of a way/relation (server.py lines 140-143).
Overpass always emits all four keys, so they are not optional here. -/
structure Bounds where
  minlat : Rat
  minlon : Rat
  maxlat : Rat
  maxlon : Rat
deriving DecidableEq

/-- An Overpass element: a JSON dict with the keys the program reads.
`none` models an absent key. -/
structure Element where
  type : Option String
  id : Option Int
  lat : Option Rat
  lon : Option Rat
  tags : Option (List (String × String))
  bounds : Option Bounds
  geometry : Option (List GeomPoint)
  members : Option (List Member)
deriving DecidableEq

/-- An Overpass-JSON document (`overpass_data` / `pota_data`): the `elements`
key may be absent (server.py line 37 checks for it), plus `version` and
`generator` metadata. -/
structure OsmDoc where
  elements : Option (List Element)
  version : Option Rat
  generator : Option String
deriving DecidableEq

/-- The dict returned by `filter_data` (server.py line 154), carrying the
filtered elements together with the fixed `version` 0.6 and `generator`
label. -/
structure FilterResult where
  elements : List Element
  version : Rat
  generator : String
deriving DecidableEq

/-- The POTA reference tag key used throughout server.py. -/
def potaKey : String := "communication:amateur_radio:pota"

/-- `element['tags']['communication:amateur_radio:pota']` guarded by
`'tags' in element and potaKey in element['tags']` (server.py lines 44-45,
53-54, 64-65, 68-69). -/
def elemRef (e : Element) : Option String :=
  match e.tags with
  | none => none
  | some t => dictGet t potaKey

/-- `element['tags']['name']` guarded by `'name' in element['tags']`
(server.py lines 47-48). -/
def elemName (e : Element) : Option String :=
  match e.tags with
  | none => none
  | some t => dictGet t "name"

/-- Python `r in refs` membership test on the collected reference set
(modelled as a list, which is how we collect it). -/
def listHas (l : List String) (r : String) : Bool :=
  l.any (fun x => decide (x = r))

/-- The set `pota_refs` built at server.py lines 42-46: all POTA references
occurring in the park-feed elements. -/
def pota_refs_of (pes : List Element) : List String :=
  pes.filterMap elemRef

/-- The dict `pota_names` built at server.py lines 41-48, looked up at a
reference `r`.  The Python loop inserts `pota_names[ref] = name` for every
feed element carrying both the POTA tag and a `name` tag, so a later element
with the same reference overwrites an earlier one; equivalently, the lookup
returns the name of the last feed element holding both tags for `r`. -/
def pota_names_lookup : List Element → String → Option String
  | [], _ => none
  | e2 :: rest, r =>
    match pota_names_lookup rest r with
    | some nm => some nm
    | none =>
      match elemRef e2, elemName e2 with
      | some r2, some nm2 => if r2 = r then some nm2 else none
      | _, _ => none

/-- Server.py lines 51-59, the body of the retention loop for one Overpass
element: keep it only when it has a POTA reference known to the park feed,
overwriting its `name` tag when the feed has a name for that reference. -/
def merge_keep (pes : List Element) (e : Element) : Option Element :=
  match e.tags with
  | none => none
  | some t =>
    match dictGet t potaKey with
    | none => none
    | some r =>
      if listHas (pota_refs_of pes) r then
        some
          (match pota_names_lookup pes r with
           | some nm => { e with tags := some (dictSet t "name" nm) }
           | none => e)
      else none

/-- `filtered_elements` (server.py lines 50-59). -/
def merge_filtered (oes pes : List Element) : List Element :=
  oes.filterMap (merge_keep pes)

/-- `overpass_refs` (server.py lines 64-65): the references present in the
retained elements. -/
def overpass_refs_of (oes pes : List Element) : List String :=
  (merge_filtered oes pes).filterMap elemRef

/-- Server.py lines 67-71: park-feed elements whose reference is not among
the retained Overpass references are appended. -/
def merge_appended (oes pes : List Element) : List Element :=
  pes.filter
    (fun e2 =>
      match elemRef e2 with
      | some r => !(listHas (overpass_refs_of oes pes) r)
      | none => false)

/-- `merge_pota_data(overpass_data, pota_data)` (server.py lines 32-73).
`pota` is `None` or a document; the function is a passthrough when the park
feed is missing, lacks an `elements` key, or has an empty element list
(line 34-35).  A missing `elements` key on the Overpass side is treated as
an empty list (lines 37-38). -/
def merge_pota_data (overpass : OsmDoc) (pota : Option OsmDoc) : OsmDoc :=
  match pota with
  | none => overpass
  | some pd =>
    match pd.elements with
    | none => overpass
    | some [] => overpass
    | some pes =>
      let oes := overpass.elements.getD []
      { overpass with
        elements := some (merge_filtered oes pes ++ merge_appended oes pes) }

/-- Decidable test that an element has no POTA reference known to the park
feed: its reference tag is absent, or its reference is not in `pota_refs`. -/
def refAbsent (pes : List Element) (e : Element) : Bool :=
  match elemRef e with
  | some r => !(listHas (pota_refs_of pes) r)
  | none => true

/-- Tagging of one geometry point (server.py lines 112-115): initialise the
point's `tags` dict when absent and write the POTA tag. -/
def tagPoint (v : String) (p : GeomPoint) : GeomPoint :=
  { p with tags := some (dictSet (p.tags.getD []) potaKey v) }

/-- Tagging of one relation member (server.py lines 118-122): members of
kind `way` receive the POTA tag; `member['type']` raises `KeyError` when the
key is absent. -/
def tagMember (v : String) (m : Member) : Except String Member :=
  match m.type with
  | none => Except.error "KeyError: type"
  | some mty =>
    if mty = "way" then
      Except.ok { m with tags := some (dictSet (m.tags.getD []) potaKey v) }
    else Except.ok m

/-- The member loop of server.py lines 118-122: process members in order,
stopping at the first raised exception. -/
def mapExcept (f : α → Except String β) : List α → Except String (List β)
  | [] => Except.ok []
  | a :: as =>
    match f a with
    | Except.error e2 => Except.error e2
    | Except.ok b =>
      match mapExcept f as with
      | Except.error e2 => Except.error e2
      | Except.ok bs => Except.ok (b :: bs)

/-- `add_pota_tag_to_subelements(element)` (server.py lines 107-123).
Line 108 reads `element['tags']` unguarded, which raises `KeyError` when the
element has no tags; likewise `element['type']` at line 110. -/
def add_pota_tag_to_subelements (el : Element) : Except String Element :=
  match el.tags with
  | none => Except.error "KeyError: tags"
  | some t =>
    let pota_value := (dictGet t potaKey).getD "yes"
    match el.type with
    | none => Except.error "KeyError: type"
    | some ty =>
      if ty = "way" then
        match el.geometry with
        | some pts =>
          Except.ok { el with geometry := some (pts.map (tagPoint pota_value)) }
        | none => Except.ok el
      else if ty = "relation" then
        match el.members with
        | some ms =>
          match mapExcept (tagMember pota_value) ms with
          | Except.error e2 => Except.error e2
          | Except.ok ms2 => Except.ok { el with members := some ms2 }
        | none => Except.ok el
      else Except.ok el

/-- The node containment test of server.py line 137:
`south <= lat <= north and west <= lon <= east`. -/
def nodeInBox (south west north east la lo : Rat) : Bool :=
  decide (south ≤ la) && decide (la ≤ north) &&
    (decide (west ≤ lo) && decide (lo ≤ east))

/-- The geometry-point containment test of server.py lines 147-149: points
lacking `lat` or `lon` never match. -/
def pointInBox (south west north east : Rat) (p : GeomPoint) : Bool :=
  match p.lat, p.lon with
  | some la, some lo => nodeInBox south west north east la lo
  | _, _ => false

/-- The bounds-overlap test of server.py lines 142-143:
`(south <= minlat <= north or south <= maxlat <= north) and
 (west <= minlon <= east or west <= maxlon <= east)`. -/
def boundsOverlap (south west north east : Rat) (b : Bounds) : Bool :=
  (decide (south ≤ b.minlat) && decide (b.minlat ≤ north) ||
     decide (south ≤ b.maxlat) && decide (b.maxlat ≤ north)) &&
  (decide (west ≤ b.minlon) && decide (b.minlon ≤ east) ||
     decide (west ≤ b.maxlon) && decide (b.maxlon ≤ east))

/-- One iteration of the element loop of `filter_data` (server.py lines
132-151).  Returns the element as it is left in the cached list after the
iteration (tag propagation mutates it in place) together with the inclusion
decision; `Except.error` models an uncaught Python exception. -/
def processElement (south west north east : Rat) (el : Element) :
    Except String (Element × Bool) :=
  match el.type with
  | none => Except.ok (el, false)
  | some ty =>
    if ty = "node" then
      match el.lat, el.lon with
      | some la, some lo => Except.ok (el, nodeInBox south west north east la lo)
      | _, _ => Except.ok (el, false)
    else if ty = "way" ∨ ty = "relation" then
      match el.bounds with
      | some b =>
        if boundsOverlap south west north east b then
          match add_pota_tag_to_subelements el with
          | Except.error e2 => Except.error e2
          | Except.ok el2 => Except.ok (el2, true)
        else Except.ok (el, false)
      | none =>
        match el.geometry with
        | some pts =>
          if pts.any (pointInBox south west north east) then
            match add_pota_tag_to_subelements el with
            | Except.error e2 => Except.error e2
            | Except.ok el2 => Except.ok (el2, true)
          else Except.ok (el, false)
        | none => Except.ok (el, false)
    else Except.ok (el, false)

/-- The whole element loop of `filter_data` (server.py lines 131-151) over a
cached element list.  The first component of the result is the cached list as
it stands after the loop (the loop never adds or removes cached entries, but
`add_pota_tag_to_subelements` mutates included ways/relations in place); the
second component is `filtered_elements`. -/
def filter_data_run (south west north east : Rat) :
    List Element → Except String (List Element × List Element)
  | [] => Except.ok ([], [])
  | el :: rest =>
    match processElement south west north east el with
    | Except.error e2 => Except.error e2
    | Except.ok (el2, inc) =>
      match filter_data_run south west north east rest with
      | Except.error e2 => Except.error e2
      | Except.ok (post, filt) =>
        Except.ok (el2 :: post, if inc then el2 :: filt else filt)

/-- `filter_data(south, west, north, east)` applied to a non-empty cache
(server.py lines 125-154): the response dict built at line 154. -/
def filter_result (south west north east : Rat) (cached_elements : List Element) :
    Except String FilterResult :=
  match filter_data_run south west north east cached_elements with
  | Except.error e2 => Except.error e2
  | Except.ok pr =>
    Except.ok
      { elements := pr.2
        version := mkRat 3 5
        generator := "Overpass API POTA Cache" }

/-- Python `str.split(sep)` for a one-character separator: split at every
occurrence, keeping empty pieces. -/
def splitOnChar (sep : Char) (l : List Char) : List (List Char) :=
  l.foldr
    (fun c acc =>
      if c = sep then [] :: acc
      else
        match acc with
        | cur :: done => (c :: cur) :: done
        | [] => [[c]])
    [[]]

/-- ASCII digit test used by the `float()` model. -/
def isPyDigit (c : Char) : Bool :=
  decide ('0' ≤ c) && decide (c ≤ '9')

/-- Whitespace stripped by Python `float()` before parsing (ASCII subset). -/
def isPySpace (c : Char) : Bool :=
  c = ' ' || c = '\t' || c = '\n' || c = '\r' || c = '\x0b' || c = '\x0c'

/-- Numeric value of a digit string. -/
def digitsVal (l : List Char) : Nat :=
  l.foldl (fun acc c => acc * 10 + (c.toNat - '0'.toNat)) 0

/-- Strip leading and trailing whitespace, as Python `float()` does. -/
def stripSpaces (l : List Char) : List Char :=
  ((l.dropWhile isPySpace).reverse.dropWhile isPySpace).reverse

/-- Optional leading sign of a float literal. -/
def parseSign : List Char → Int × List Char
  | '+' :: rest => (1, rest)
  | '-' :: rest => (-1, rest)
  | l => (1, l)

/-- Model of Python `float(s)` restricted to finite decimal/exponent
literals: optional surrounding whitespace, optional sign, digits with an
optional fractional part, optional `e`/`E` exponent; `none` models a raised
`ValueError`.  (The `inf`/`nan` forms and underscore digit grouping accepted
by CPython have no finite rational meaning respectively no use in Overpass
queries and are modelled as failures.) -/
def pyFloat (l0 : List Char) : Option Rat :=
  let l1 := stripSpaces l0
  let sl := parseSign l1
  let intDigits := sl.2.takeWhile isPyDigit
  let r1 := sl.2.dropWhile isPyDigit
  let fr :=
    match r1 with
    | '.' :: rest => (rest.takeWhile isPyDigit, rest.dropWhile isPyDigit)
    | _ => ([], r1)
  if intDigits.isEmpty && fr.1.isEmpty then none
  else
    let num : Int :=
      sl.1 * ((digitsVal intDigits * 10 ^ fr.1.length + digitsVal fr.1 : Nat) : Int)
    let den : Nat := 10 ^ fr.1.length
    match fr.2 with
    | [] => some (mkRat num den)
    | c :: rest =>
      if c = 'e' ∨ c = 'E' then
        let esl := parseSign rest
        let expDigits := esl.2.takeWhile isPyDigit
        let r4 := esl.2.dropWhile isPyDigit
        if expDigits.isEmpty then none
        else if r4.isEmpty then
          if esl.1 = 1 then some (mkRat (num * 10 ^ digitsVal expDigits) den)
          else some (mkRat num (den * 10 ^ digitsVal expDigits))
        else none
      else none

/-- Hexadecimal digit test for percent escapes. -/
def isHexChar (c : Char) : Bool :=
  isPyDigit c || (decide ('a' ≤ c) && decide (c ≤ 'f')) ||
    (decide ('A' ≤ c) && decide (c ≤ 'F'))

/-- Value of a hexadecimal digit. -/
def hexVal (c : Char) : Nat :=
  if isPyDigit c then c.toNat - '0'.toNat
  else if decide ('a' ≤ c) && decide (c ≤ 'f') then c.toNat - 'a'.toNat + 10
  else c.toNat - 'A'.toNat + 10

/-- Model of `urllib.parse.unquote` restricted to single-byte percent
escapes: `%XX` with two hex digits becomes the character with that code
(faithful for ASCII escapes, which are the only ones an Overpass bbox query
contains); an ill-formed escape is kept literally, as in CPython. -/
def pyUnquote : List Char → List Char
  | [] => []
  | '%' :: a :: b :: rest =>
    if isHexChar a && isHexChar b then
      Char.ofNat (hexVal a * 16 + hexVal b) :: pyUnquote rest
    else '%' :: pyUnquote (a :: b :: rest)
  | c :: rest => c :: pyUnquote rest

/-- Server.py lines 158-160: the query is percent-decoded first when it
contains a `%`. -/
def unquote_if_encoded (ql : List Char) : List Char :=
  if ql.contains '%' then pyUnquote ql else ql

/-- Server.py line 163, the bbox extraction
`query.split('(')[1].split(')')[0].split(',')`: `none` models the
`IndexError` raised (and caught) when the query has no `(`. -/
def bboxPieces (ql : List Char) : Option (List (List Char)) :=
  match splitOnChar '(' ql with
  | _ :: part1 :: _ => some (splitOnChar ',' ((splitOnChar ')' part1).headD []))
  | _ => none

/-- Server.py line 164, `south, west, north, east = map(float, bbox)`:
succeeds exactly when the comma-split pieces are exactly four parseable
floats; any other shape raises a `ValueError` (from `float()` or from the
unpacking), modelled as `none`. -/
def parseFourFloats (pieces : List (List Char)) : Option (Rat × Rat × Rat × Rat) :=
  match pieces.map pyFloat with
  | [some s, some w, some n, some e] => some (s, w, n, e)
  | _ => none

/-- `parse_query(query)` (server.py lines 156-169): returns the bounding box
`(south, west, north, east)` or `None` when an `IndexError`/`ValueError` was
raised and caught. -/
def parse_query (q : String) : Option (Rat × Rat × Rat × Rat) :=
  match bboxPieces (unquote_if_encoded q.toList) with
  | some pieces => parseFourFloats pieces
  | none => none

/-- Decidable test for the success condition of `parse_query`: the
parenthesis group is present and its comma-split contents parse as exactly
four floats. -/
def query_parses_four (q : String) : Bool :=
  match bboxPieces (unquote_if_encoded q.toList) with
  | some pieces => (parseFourFloats pieces).isSome
  | none => false

/-- The HTTP response returned by `requests.get` in `fetch_overpass_data`
(server.py line 91): status code plus the parsed JSON body, where `none`
models a body that `response.json()` fails to parse. -/
structure HttpResponse where
  status_code : Nat
  json_body : Option OsmDoc
deriving DecidableEq

/-- `response.raise_for_status()` (server.py line 92): `requests` raises
`HTTPError` (a `RequestException`) exactly for 4xx/5xx status codes. -/
def raise_for_status (r : HttpResponse) : Except String HttpResponse :=
  if 400 ≤ r.status_code then Except.error "HTTPError" else Except.ok r

/-- `response.json()` (server.py line 93): raises
`requests.exceptions.JSONDecodeError` (a `RequestException`) on a malformed
body. -/
def response_json (r : HttpResponse) : Except String OsmDoc :=
  match r.json_body with
  | some d => Except.ok d
  | none => Except.error "JSONDecodeError"

/-- The upstream fetch pipeline of server.py lines 91-93; the `resp`
argument is the outcome of the network call itself (`Except.error` models a
`ConnectionError`/`Timeout`, both `RequestException`s). -/
def http_fetch_result (resp : Except String HttpResponse) : Except String OsmDoc :=
  match resp with
  | Except.error e2 => Except.error e2
  | Except.ok r =>
    match raise_for_status r with
    | Except.error e2 => Except.error e2
    | Except.ok r2 => response_json r2

/-- The mutable module state touched by `fetch_overpass_data` (server.py
lines 26-28): `cached_data`, `last_cache_update`, `cache_refresh_count`. -/
structure CacheState where
  cached_data : Option OsmDoc
  last_cache_update : Option Rat
  cache_refresh_count : Nat
deriving DecidableEq

/-- `fetch_overpass_data()` (server.py lines 76-105) as a state transition.
The network interaction is supplied as `resp`, the outcome of
`update_pota_data()` as `pota_data` (that helper swallows all of its own
errors and returns `None` on failure, pota_csv_fetcher.py lines 105-141),
and the wall clock as `now`.  On any `RequestException` from the fetch
pipeline the handler at lines 104-105 logs the error and leaves all three
globals untouched; nothing is re-raised. -/
def fetch_overpass_data (st : CacheState) (resp : Except String HttpResponse)
    (pota_data : Option OsmDoc) (now : Rat) : CacheState :=
  match http_fetch_result resp with
  | Except.ok overpass_data =>
    { cached_data := some (merge_pota_data overpass_data pota_data)
      last_cache_update := some now
      cache_refresh_count := st.cache_refresh_count + 1 }
  | Except.error _ => st

/-- A concrete way element as Overpass would return it: POTA-tagged, with a
`bounds` rectangle and one untagged geometry point. -/
def bugWay : Element :=
  { type := some "way"
    id := some 1
    lat := none
    lon := none
    tags := some [(potaKey, "US-0001")]
    bounds := some { minlat := 10, minlon := 10, maxlat := 20, maxlon := 20 }
    geometry := some [{ lat := some 15, lon := some 15, tags := none }]
    members := none }

/-- `bugWay` as `filter_data` leaves it in the cached list after an
including pass: the geometry point has acquired the propagated POTA tag. -/
def bugWayTagged : Element :=
  { bugWay with
    geometry := some
      [{ lat := some 15, lon := some 15, tags := some [(potaKey, "US-0001")] }] }

/-- A concrete Overpass node with POTA reference `US-1` and an OSM name. -/
def oNode1 : Element :=
  { type := some "node"
    id := some 10
    lat := some 1
    lon := some 1
    tags := some [(potaKey, "US-1"), ("name", "Old OSM Name")]
    bounds := none
    geometry := none
    members := none }

/-- A park-feed element with reference `US-1` and the feed's name, shaped as
pota_csv_fetcher.py builds it (lines 77-87). -/
def pNode1 : Element :=
  { type := some "node"
    id := none
    lat := some 40
    lon := some (-100)
    tags := some
      [(potaKey, "US-1"), ("name", "New Feed Name"), ("pota:active", "1"),
        ("unmapped_osm", "true")]
    bounds := none
    geometry := none
    members := none }

/-- A park-feed element with reference `US-3`, matching no Overpass element. -/
def pNode3 : Element :=
  { type := some "node"
    id := none
    lat := some 45
    lon := some (-122)
    tags := some
      [(potaKey, "US-3"), ("name", "Park Three"), ("pota:active", "1"),
        ("unmapped_osm", "true")]
    bounds := none
    geometry := none
    members := none }

/-- A concrete Overpass document holding `oNode1`. -/
def oDoc : OsmDoc :=
  { elements := some [oNode1]
    version := some (mkRat 3 5)
    generator := some "Overpass API" }

/-- A park-feed document holding only `pNode3`. -/
def pDoc3 : OsmDoc :=
  { elements := some [pNode3]
    version := some (mkRat 3 5)
    generator := some "POTA CSV Parser" }

/-- A park-feed document holding only `pNode1`. -/
def pDoc1 : OsmDoc :=
  { elements := some [pNode1]
    version := some (mkRat 3 5)
    generator := some "POTA CSV Parser" }

/-- A concrete in-box node used by the filter witnesses. -/
def wNode : Element :=
  { type := some "node"
    id := some 7
    lat := some 15
    lon := some 15
    tags := some [(potaKey, "US-0007")]
    bounds := none
    geometry := none
    members := none }

/-- The filter response for a cache holding only `wNode` and the bounding
box (0, 0, 30, 30). -/
def wNodeResult : FilterResult :=
  { elements := [wNode]
    version := mkRat 3 5
    generator := "Overpass API POTA Cache" }

/-- An element with no `type` key: structurally incomplete input for the
filter. -/
def untypedEl : Element :=
  { type := none
    id := some 99
    lat := some 1
    lon := some 1
    tags := some [(potaKey, "US-0099")]
    bounds := none
    geometry := none
    members := none }

/-- A concrete cache state used by the refresh-failure witness. -/
def stWitness : CacheState :=
  { cached_data := some oDoc
    last_cache_update := some 1000
    cache_refresh_count := 3 }

/-- The element `merge_pota_data` produces from `oNode1` when the feed is
`pDoc1`: the OSM identity with the feed's authoritative name. -/
def mergedNode1 : Element :=
  { oNode1 with tags := some [(potaKey, "US-1"), ("name", "New Feed Name")] }

/-- Decidable test that an element's POTA reference is `US-3`. -/
def refEqUS3 : Element → Bool :=
  fun x => decide (elemRef x = some "US-3")

theorem dictGet_dictSet_self (t : List (String × String)) (k v : String) :
    dictGet (dictSet t k v) k = some v := by
  induction t with
  | nil => simp [dictGet, dictSet]
  | cons p rest ih =>
    obtain ⟨k2, v2⟩ := p
    by_cases hk : k2 = k
    · subst hk; simp [dictGet, dictSet]
    · simp [dictGet, dictSet, hk, ih]

theorem dictGet_dictSet_ne (t : List (String × String)) (k k2 v : String)
    (h : k2 ≠ k) : dictGet (dictSet t k v) k2 = dictGet t k2 := by
  induction t with
  | nil => simp [dictGet, dictSet, Ne.symm h]
  | cons p rest ih =>
    obtain ⟨k3, v3⟩ := p
    by_cases hk : k3 = k
    · subst hk
      simp only [dictSet, if_pos rfl]
      simp [dictGet, Ne.symm h]
    · simp [dictGet, dictSet, hk, ih]

theorem dictSet_dictSet_same (t : List (String × String)) (k v : String) :
    dictSet (dictSet t k v) k v = dictSet t k v := by
  induction t with
  | nil => simp [dictSet]
  | cons p rest ih =>
    obtain ⟨k2, v2⟩ := p
    by_cases hk : k2 = k
    · subst hk; simp [dictSet]
    · simp [dictSet, hk, ih]

theorem listHas_iff (l : List String) (r : String) :
    listHas l r = true ↔ r ∈ l := by
  simp [listHas, List.any_eq_true]

theorem pointInBox_tagPoint (south west north east : Rat) (v : String)
    (p : GeomPoint) :
    pointInBox south west north east (tagPoint v p) =
      pointInBox south west north east p := by
  cases p
  rfl

theorem tagPoint_tagPoint (v : String) (p : GeomPoint) :
    tagPoint v (tagPoint v p) = tagPoint v p := by
  cases p
  simp [tagPoint, dictSet_dictSet_same]

theorem map_tagPoint_idem (v : String) (pts : List GeomPoint) :
    (pts.map (tagPoint v)).map (tagPoint v) = pts.map (tagPoint v) := by
  induction pts with
  | nil => rfl
  | cons p rest ih => simp [tagPoint_tagPoint, ih]

theorem any_pointInBox_map_tagPoint (south west north east : Rat) (v : String)
    (pts : List GeomPoint) :
    (pts.map (tagPoint v)).any (pointInBox south west north east) =
      pts.any (pointInBox south west north east) := by
  induction pts with
  | nil => rfl
  | cons p rest ih => simp [pointInBox_tagPoint, ih]

theorem tagMember_idem (v : String) (m m2 : Member)
    (h : tagMember v m = Except.ok m2) : tagMember v m2 = Except.ok m2 := by
  obtain ⟨mt, mr, mro, mtg⟩ := m
  cases mt with
  | none => exact absurd h (by simp [tagMember])
  | some mty =>
    by_cases hw : mty = "way"
    · subst hw
      simp [tagMember] at h
      subst h
      simp [tagMember, dictSet_dictSet_same]
    · simp [tagMember, hw] at h
      subst h
      simp [tagMember, hw]

theorem mapExcept_idem (f : α → Except String α)
    (hf : ∀ a b, f a = Except.ok b → f b = Except.ok b) :
    ∀ l l2, mapExcept f l = Except.ok l2 → mapExcept f l2 = Except.ok l2 := by
  intro l
  induction l with
  | nil =>
    intro l2 h
    simp only [mapExcept, Except.ok.injEq] at h
    subst h
    rfl
  | cons a as ih =>
    intro l2 h
    simp only [mapExcept] at h
    cases ha : f a with
    | error e2 => rw [ha] at h; simp at h
    | ok b =>
      rw [ha] at h
      cases has : mapExcept f as with
      | error e2 => rw [has] at h; simp at h
      | ok bs =>
        rw [has] at h
        simp only [Except.ok.injEq] at h
        subst h
        simp [mapExcept, hf a b ha, ih bs has]

theorem add_pota_preserves (el x : Element)
    (h : add_pota_tag_to_subelements el = Except.ok x) :
    x.type = el.type ∧ x.lat = el.lat ∧ x.lon = el.lon ∧
      x.bounds = el.bounds ∧ x.tags = el.tags ∧
      (x.geometry = el.geometry ∨
        ∃ v pts, el.geometry = some pts ∧
          x.geometry = some (pts.map (tagPoint v))) := by
  obtain ⟨ty, i, la, lo, tg, bd, ge, ms⟩ := el
  cases tg with
  | none => exact absurd h (by simp [add_pota_tag_to_subelements])
  | some t =>
    cases ty with
    | none => exact absurd h (by simp [add_pota_tag_to_subelements])
    | some ty2 =>
      by_cases hw : ty2 = "way"
      · subst hw
        cases ge with
        | some pts =>
          simp [add_pota_tag_to_subelements] at h
          subst h
          exact ⟨rfl, rfl, rfl, rfl, rfl, Or.inr ⟨_, pts, rfl, rfl⟩⟩
        | none =>
          simp [add_pota_tag_to_subelements] at h
          subst h
          exact ⟨rfl, rfl, rfl, rfl, rfl, Or.inl rfl⟩
      · by_cases hr : ty2 = "relation"
        · subst hr
          cases ms with
          | some mems =>
            cases hm : mapExcept (tagMember ((dictGet t potaKey).getD "yes")) mems with
            | error e2 => simp [add_pota_tag_to_subelements, hw, hm] at h
            | ok ms2 =>
              simp [add_pota_tag_to_subelements, hw, hm] at h
              subst h
              exact ⟨rfl, rfl, rfl, rfl, rfl, Or.inl rfl⟩
          | none =>
            simp [add_pota_tag_to_subelements, hw] at h
            subst h
            exact ⟨rfl, rfl, rfl, rfl, rfl, Or.inl rfl⟩
        · simp [add_pota_tag_to_subelements, hw, hr] at h
          subst h
          exact ⟨rfl, rfl, rfl, rfl, rfl, Or.inl rfl⟩

theorem add_pota_idem (el x : Element)
    (h : add_pota_tag_to_subelements el = Except.ok x) :
    add_pota_tag_to_subelements x = Except.ok x := by
  obtain ⟨ty, i, la, lo, tg, bd, ge, ms⟩ := el
  cases tg with
  | none => exact absurd h (by simp [add_pota_tag_to_subelements])
  | some t =>
    cases ty with
    | none => exact absurd h (by simp [add_pota_tag_to_subelements])
    | some ty2 =>
      by_cases hw : ty2 = "way"
      · subst hw
        cases ge with
        | some pts =>
          simp [add_pota_tag_to_subelements] at h
          subst h
          simp [add_pota_tag_to_subelements, map_tagPoint_idem, tagPoint_tagPoint]
        | none =>
          simp [add_pota_tag_to_subelements] at h
          subst h
          simp [add_pota_tag_to_subelements]
      · by_cases hr : ty2 = "relation"
        · subst hr
          cases ms with
          | some mems =>
            cases hm : mapExcept (tagMember ((dictGet t potaKey).getD "yes")) mems with
            | error e2 => simp [add_pota_tag_to_subelements, hw, hm] at h
            | ok ms2 =>
              simp [add_pota_tag_to_subelements, hw, hm] at h
              subst h
              have h2 := mapExcept_idem _ (tagMember_idem _) mems ms2 hm
              simp [add_pota_tag_to_subelements, hw, h2]
          | none =>
            simp [add_pota_tag_to_subelements, hw] at h
            subst h
            simp [add_pota_tag_to_subelements, hw]
        · simp [add_pota_tag_to_subelements, hw, hr] at h
          subst h
          simp [add_pota_tag_to_subelements, hw, hr]

theorem processElement_ok_true (south west north east : Rat) (el x : Element)
    (h : processElement south west north east el = Except.ok (x, true)) :
    (el.type = some "node" ∧ x = el ∧
      ∃ la lo, el.lat = some la ∧ el.lon = some lo ∧
        nodeInBox south west north east la lo = true) ∨
    ((el.type = some "way" ∨ el.type = some "relation") ∧
      add_pota_tag_to_subelements el = Except.ok x ∧
      ((∃ b, el.bounds = some b ∧ boundsOverlap south west north east b = true) ∨
        (el.bounds = none ∧
          ∃ pts, el.geometry = some pts ∧
            pts.any (pointInBox south west north east) = true))) := by
  obtain ⟨ty, i, la, lo, tg, bd, ge, ms⟩ := el
  cases ty with
  | none => simp [processElement] at h
  | some ty2 =>
    by_cases hn : ty2 = "node"
    · subst hn
      cases la with
      | none => simp [processElement] at h
      | some la2 =>
        cases lo with
        | none => simp [processElement] at h
        | some lo2 =>
          simp [processElement] at h
          exact Or.inl ⟨rfl, h.1.symm, la2, lo2, rfl, rfl, h.2⟩
    · by_cases hwr : ty2 = "way" ∨ ty2 = "relation"
      · have htywr :
            (some ty2 = some "way" ∨ some ty2 = some "relation") := by
          cases hwr with
          | inl h2 => exact Or.inl (congrArg some h2)
          | inr h2 => exact Or.inr (congrArg some h2)
        cases bd with
        | some b =>
          by_cases hov : boundsOverlap south west north east b = true
          · cases hap : add_pota_tag_to_subelements
                ⟨some ty2, i, la, lo, tg, some b, ge, ms⟩ with
            | error e2 => simp [processElement, hn, hwr, hov, hap] at h
            | ok el2 =>
              simp [processElement, hn, hwr, hov, hap] at h
              subst h
              exact Or.inr ⟨htywr, rfl, Or.inl ⟨b, rfl, hov⟩⟩
          · simp [processElement, hn, hwr, hov] at h
        | none =>
          cases ge with
          | some pts =>
            by_cases hany :
                pts.any (pointInBox south west north east) = true
            · cases hap : add_pota_tag_to_subelements
                  ⟨some ty2, i, la, lo, tg, none, some pts, ms⟩ with
              | error e2 => simp [processElement, hn, hwr, hany, hap] at h
              | ok el2 =>
                simp [processElement, hn, hwr, hany, hap] at h
                subst h
                exact Or.inr ⟨htywr, rfl, Or.inr ⟨rfl, pts, rfl, hany⟩⟩
            · simp [processElement, hn, hwr, hany] at h
          | none => simp [processElement, hn, hwr] at h
      · simp [processElement, hn, hwr] at h

theorem processElement_stable (south west north east : Rat) (el x : Element)
    (h : processElement south west north east el = Except.ok (x, true)) :
    processElement south west north east x = Except.ok (x, true) := by
  rcases processElement_ok_true south west north east el x h with
    ⟨hty, hx, la, lo, hla, hlo, hnb⟩ | ⟨hty, hap, hcase⟩
  · subst hx
    exact h
  · obtain ⟨h1, h2, h3, h4, h5, hgeom⟩ := add_pota_preserves el x hap
    have hidem := add_pota_idem el x hap
    have hxty : x.type = some "way" ∨ x.type = some "relation" := by
      rw [h1]; exact hty
    cases hxty2 : x.type with
    | none =>
      rw [hxty2] at hxty
      rcases hxty with h6 | h6 <;> simp at h6
    | some ty2 =>
      rw [hxty2] at hxty
      have hwr : ty2 = "way" ∨ ty2 = "relation" := by
        rcases hxty with h6 | h6
        · exact Or.inl (by injection h6)
        · exact Or.inr (by injection h6)
      have hn : ¬ty2 = "node" := by
        intro hcontra
        subst hcontra
        rcases hwr with h6 | h6 <;> simp at h6
      rcases hcase with ⟨b, hbd, hov⟩ | ⟨hbd, pts, hge, hany⟩
      · have hxbd : x.bounds = some b := by rw [h4, hbd]
        simp [processElement, hxty2, hn, hwr, hxbd, hov, hidem]
      · have hxbd : x.bounds = none := by rw [h4, hbd]
        have hxge : ∃ pts2, x.geometry = some pts2 ∧
            pts2.any (pointInBox south west north east) = true := by
          rcases hgeom with h6 | ⟨v, pts3, h6, h7⟩
          · exact ⟨pts, by rw [h6, hge], hany⟩
          · rw [h6] at hge
            injection hge with hge2
            subst hge2
            exact ⟨pts3.map (tagPoint v), h7,
              by rw [any_pointInBox_map_tagPoint]; exact hany⟩
        obtain ⟨pts2, hxge2, hany2⟩ := hxge
        simp [processElement, hxty2, hn, hwr, hxbd, hxge2, hany2, hidem]

theorem filter_data_run_source (south west north east : Rat)
    (els : List Element) :
    ∀ post filt,
      filter_data_run south west north east els = Except.ok (post, filt) →
      ∀ x ∈ filt, ∃ src, src ∈ els ∧
        processElement south west north east src = Except.ok (x, true) := by
  induction els with
  | nil =>
    intro post filt h x hx
    simp only [filter_data_run, Except.ok.injEq, Prod.mk.injEq] at h
    rw [← h.2] at hx
    simp at hx
  | cons el rest ih =>
    intro post filt h x hx
    simp only [filter_data_run] at h
    cases hpe : processElement south west north east el with
    | error e2 => rw [hpe] at h; simp at h
    | ok pr =>
      obtain ⟨el2, inc⟩ := pr
      rw [hpe] at h
      cases hrun : filter_data_run south west north east rest with
      | error e2 => rw [hrun] at h; simp at h
      | ok pr2 =>
        obtain ⟨post2, filt2⟩ := pr2
        rw [hrun] at h
        simp only [Except.ok.injEq, Prod.mk.injEq] at h
        rw [← h.2] at hx
        cases inc with
        | false =>
          simp only [Bool.false_eq_true, if_false] at hx
          obtain ⟨src, hsrc, hps⟩ := ih post2 filt2 hrun x hx
          exact ⟨src, List.mem_cons_of_mem el hsrc, hps⟩
        | true =>
          simp only [if_true] at hx
          rcases List.mem_cons.mp hx with hx2 | hx2
          · subst hx2
            exact ⟨el, List.mem_cons_self el rest, hpe⟩
          · obtain ⟨src, hsrc, hps⟩ := ih post2 filt2 hrun x hx2
            exact ⟨src, List.mem_cons_of_mem el hsrc, hps⟩

theorem filter_data_run_mem (south west north east : Rat)
    (els : List Element) :
    ∀ post filt,
      filter_data_run south west north east els = Except.ok (post, filt) →
      ∀ el ∈ els, ∀ x,
        processElement south west north east el = Except.ok (x, true) →
        x ∈ filt := by
  induction els with
  | nil =>
    intro post filt h el hel
    simp at hel
  | cons el0 rest ih =>
    intro post filt h el hel x hx
    simp only [filter_data_run] at h
    cases hpe : processElement south west north east el0 with
    | error e2 => rw [hpe] at h; simp at h
    | ok pr =>
      obtain ⟨el2, inc⟩ := pr
      rw [hpe] at h
      cases hrun : filter_data_run south west north east rest with
      | error e2 => rw [hrun] at h; simp at h
      | ok pr2 =>
        obtain ⟨post2, filt2⟩ := pr2
        rw [hrun] at h
        simp only [Except.ok.injEq, Prod.mk.injEq] at h
        rw [← h.2]
        rcases List.mem_cons.mp hel with hel2 | hel2
        · subst hel2
          have h3 := hpe.symm.trans hx
          simp only [Except.ok.injEq, Prod.mk.injEq] at h3
          rw [h3.2, h3.1]
          simp
        · have h4 := ih post2 filt2 hrun el hel2 x hx
          cases inc with
          | false => simpa using h4
          | true => simp [h4]

theorem filter_data_run_total (south west north east : Rat)
    (els : List Element) :
    ∀ post filt,
      filter_data_run south west north east els = Except.ok (post, filt) →
      ∀ el ∈ els, ∃ pr,
        processElement south west north east el = Except.ok pr := by
  induction els with
  | nil =>
    intro post filt h el hel
    simp at hel
  | cons el0 rest ih =>
    intro post filt h el hel
    simp only [filter_data_run] at h
    cases hpe : processElement south west north east el0 with
    | error e2 => rw [hpe] at h; simp at h
    | ok pr =>
      obtain ⟨el2, inc⟩ := pr
      rw [hpe] at h
      cases hrun : filter_data_run south west north east rest with
      | error e2 => rw [hrun] at h; simp at h
      | ok pr2 =>
        rcases List.mem_cons.mp hel with hel2 | hel2
        · subst hel2
          exact ⟨(el2, inc), hpe⟩
        · exact ih pr2.1 pr2.2 (by rw [hrun]) el hel2

theorem filter_data_run_all_included (south west north east : Rat)
    (l : List Element)
    (hall : ∀ x ∈ l, processElement south west north east x = Except.ok (x, true)) :
    filter_data_run south west north east l = Except.ok (l, l) := by
  induction l with
  | nil => rfl
  | cons a as ih =>
    have ha := hall a (List.mem_cons_self a as)
    have has := ih (fun x hx => hall x (List.mem_cons_of_mem a hx))
    simp [filter_data_run, ha, has]

theorem processElement_node_eval (south west north east : Rat) (el : Element)
    (hty : el.type = some "node") (la lo : Rat)
    (hla : el.lat = some la) (hlo : el.lon = some lo) :
    processElement south west north east el =
      Except.ok (el, nodeInBox south west north east la lo) := by
  obtain ⟨ty, i, la2, lo2, tg, bd, ge, ms⟩ := el
  subst hty
  subst hla
  subst hlo
  simp [processElement]

theorem processElement_bounds_branch (south west north east : Rat)
    (el : Element)
    (hty : el.type = some "way" ∨ el.type = some "relation")
    (b : Bounds) (hb : el.bounds = some b)
    (hov : boundsOverlap south west north east b = true) :
    processElement south west north east el =
      match add_pota_tag_to_subelements el with
      | Except.error e2 => Except.error e2
      | Except.ok el2 => Except.ok (el2, true) := by
  obtain ⟨ty, i, la2, lo2, tg, bd, ge, ms⟩ := el
  subst hb
  rcases hty with h6 | h6
  · subst h6
    simp [processElement, hov]
  · subst h6
    simp [processElement, hov]

/-- C1: the claim says filtering never mutates the cached snapshot and that
tag propagation affects only the returned copy.  The code violates this:
`filter_data` calls `add_pota_tag_to_subelements` directly on the cached
element (server.py lines 144, 150), which writes the POTA tag into the
cached way's geometry points in place.  Evaluated at the failing input — a
cache holding one POTA-tagged way whose bounds overlap the query bbox
(0, 0, 30, 30) and whose geometry point has no tags — the cached list after
the filter run holds the mutated element `bugWayTagged`, not the original
`bugWay`. -/
theorem filter_mutates_cached_snapshot :
    filter_data_run 0 0 30 30 [bugWay] =
      Except.ok ([bugWayTagged], [bugWayTagged]) ∧
    bugWayTagged ≠ bugWay := by
  exact ⟨by decide, by decide⟩

/-- C3: for every snapshot and bounding box, a node-kind element is in the
filtered list iff it is in the snapshot and its coordinates satisfy
`south <= lat <= north` and `west <= lon <= east`, all four edge
comparisons inclusive (server.py lines 134-138). -/
theorem filter_node_iff (south west north east : Rat)
    (els post filt : List Element)
    (hrun : filter_data_run south west north east els = Except.ok (post, filt))
    (el : Element) (hty : el.type = some "node") :
    el ∈ filt ↔
      el ∈ els ∧ ∃ la lo, el.lat = some la ∧ el.lon = some lo ∧
        south ≤ la ∧ la ≤ north ∧ west ≤ lo ∧ lo ≤ east := by
  constructor
  · intro hmem
    obtain ⟨src, hsrc, hps⟩ :=
      filter_data_run_source south west north east els post filt hrun el hmem
    rcases processElement_ok_true south west north east src el hps with
      ⟨hsty, hx, la, lo, hla, hlo, hnb⟩ | ⟨hsty, hap, _⟩
    · subst hx
      refine ⟨hsrc, la, lo, hla, hlo, ?_⟩
      simp only [nodeInBox, Bool.and_eq_true, decide_eq_true_eq] at hnb
      exact ⟨hnb.1.1, hnb.1.2, hnb.2.1, hnb.2.2⟩
    · obtain ⟨h1, _, _, _, _, _⟩ := add_pota_preserves src el hap
      rw [hty] at h1
      rcases hsty with h6 | h6 <;> rw [h6] at h1 <;> simp at h1
  · rintro ⟨hmem, la, lo, hla, hlo, h1, h2, h3, h4⟩
    have hnb : nodeInBox south west north east la lo = true := by
      simp [nodeInBox, h1, h2, h3, h4]
    have hps : processElement south west north east el = Except.ok (el, true) := by
      rw [processElement_node_eval south west north east el hty la lo hla hlo,
        hnb]
    exact filter_data_run_mem south west north east els post filt hrun
      el hmem el hps

/-- Witness for C3: the node at (15, 15) is included for the bounding box
(0, 0, 30, 30). -/
theorem filter_node_iff_witness : wNode ∈ ([wNode] : List Element) :=
  (filter_node_iff 0 0 30 30 [wNode] [wNode] [wNode] (by decide)
      wNode rfl).mpr
    ⟨List.mem_singleton.mpr rfl, 15, 15, rfl, rfl,
      by decide, by decide, by decide, by decide⟩

/-- C5: `Filter` is idempotent — re-filtering the element list of a filter
response with the same bounding box reproduces the response exactly,
including the elements that already received propagated POTA tags. -/
theorem filter_idempotent (south west north east : Rat)
    (els : List Element) (r : FilterResult)
    (h : filter_result south west north east els = Except.ok r) :
    filter_result south west north east r.elements = Except.ok r := by
  unfold filter_result at h
  cases hrun : filter_data_run south west north east els with
  | error e2 => rw [hrun] at h; simp at h
  | ok pr =>
    rw [hrun] at h
    simp only [Except.ok.injEq] at h
    obtain ⟨post, filt⟩ := pr
    subst h
    have hall : ∀ x ∈ filt,
        processElement south west north east x = Except.ok (x, true) := by
      intro x hx
      obtain ⟨src, hsrc, hps⟩ :=
        filter_data_run_source south west north east els post filt hrun x hx
      exact processElement_stable south west north east src x hps
    have hrun2 := filter_data_run_all_included south west north east filt hall
    show filter_result south west north east filt = _
    unfold filter_result
    rw [hrun2]

/-- Witness for C5: re-filtering the response for the single-node cache
with the same bbox (0, 0, 30, 30) returns the same response. -/
theorem filter_idempotent_witness :
    filter_result 0 0 30 30 wNodeResult.elements = Except.ok wNodeResult :=
  filter_idempotent 0 0 30 30 [wNode] wNodeResult (by decide)

/-- C8: a way/relation element carrying a `bounds` rectangle is included
(its propagated copy appears in the filtered list) iff
`(south <= minlat <= north or south <= maxlat <= north) and
 (west <= minlon <= east or west <= maxlon <= east)` (server.py lines
139-144); in particular bounds that strictly contain the query bbox on an
axis are not matched. -/
theorem filter_bounds_overlap_iff (south west north east : Rat)
    (els post filt : List Element)
    (hrun : filter_data_run south west north east els = Except.ok (post, filt))
    (el : Element) (hel : el ∈ els)
    (hty : el.type = some "way" ∨ el.type = some "relation")
    (b : Bounds) (hb : el.bounds = some b) :
    (∃ el2, add_pota_tag_to_subelements el = Except.ok el2 ∧ el2 ∈ filt) ↔
      (((south ≤ b.minlat ∧ b.minlat ≤ north) ∨
          (south ≤ b.maxlat ∧ b.maxlat ≤ north)) ∧
        ((west ≤ b.minlon ∧ b.minlon ≤ east) ∨
          (west ≤ b.maxlon ∧ b.maxlon ≤ east))) := by
  have hbool : boundsOverlap south west north east b = true ↔
      (((south ≤ b.minlat ∧ b.minlat ≤ north) ∨
          (south ≤ b.maxlat ∧ b.maxlat ≤ north)) ∧
        ((west ≤ b.minlon ∧ b.minlon ≤ east) ∨
          (west ≤ b.maxlon ∧ b.maxlon ≤ east))) := by
    simp [boundsOverlap, Bool.and_eq_true, Bool.or_eq_true, decide_eq_true_eq]
  constructor
  · rintro ⟨el2, hap, hmem⟩
    obtain ⟨src, hsrc, hps⟩ :=
      filter_data_run_source south west north east els post filt hrun el2 hmem
    obtain ⟨h1, _, _, h4, _, _⟩ := add_pota_preserves el el2 hap
    rcases processElement_ok_true south west north east src el2 hps with
      ⟨hsty, hx, _, _, _, _, _⟩ | ⟨hsty, hap2, hcase⟩
    · rw [hx, hsty] at h1
      rcases hty with h6 | h6 <;> rw [h6] at h1 <;> simp at h1
    · obtain ⟨h1s, _, _, h4s, _, _⟩ := add_pota_preserves src el2 hap2
      rcases hcase with ⟨b2, hbd2, hov2⟩ | ⟨hbd2, _, _, _⟩
      · rw [hbd2] at h4s
        rw [hb] at h4
        rw [h4] at h4s
        injection h4s with hbb
        subst hbb
        exact hbool.mp hov2
      · rw [hbd2] at h4s
        rw [hb] at h4
        rw [h4] at h4s
        simp at h4s
  · intro hov
    have hov2 : boundsOverlap south west north east b = true := hbool.mpr hov
    have hbr := processElement_bounds_branch south west north east el hty b hb hov2
    obtain ⟨pr, hpr⟩ :=
      filter_data_run_total south west north east els post filt hrun el hel
    cases hap : add_pota_tag_to_subelements el with
    | error e2 =>
      rw [hap] at hbr
      rw [hbr] at hpr
      simp at hpr
    | ok el2 =>
      rw [hap] at hbr
      exact ⟨el2, rfl,
        filter_data_run_mem south west north east els post filt hrun
          el hel el2 hbr⟩

/-- Witness for C8: the way with bounds [10,20]x[10,20] is included for the
bbox (0, 0, 30, 30) — its propagated copy `bugWayTagged` is in the filtered
list — and the theorem turns that into the overlap property of its bounds. -/
theorem filter_bounds_overlap_iff_witness :
    (((0 : Rat) ≤ 10 ∧ (10 : Rat) ≤ 30) ∨ ((0 : Rat) ≤ 20 ∧ (20 : Rat) ≤ 30)) ∧
      (((0 : Rat) ≤ 10 ∧ (10 : Rat) ≤ 30) ∨ ((0 : Rat) ≤ 20 ∧ (20 : Rat) ≤ 30)) :=
  (filter_bounds_overlap_iff 0 0 30 30 [bugWay] [bugWayTagged] [bugWayTagged]
      (by decide) bugWay (List.mem_singleton.mpr rfl) (Or.inl rfl)
      { minlat := 10, minlon := 10, maxlat := 20, maxlon := 20 } rfl).mp
    ⟨bugWayTagged, by decide, List.mem_singleton.mpr rfl⟩

/-- C10: structurally incomplete elements — no `type` key, a node without
`lat` or `lon`, a way/relation with neither `bounds` nor `geometry` — are
silently excluded by the filter for every bounding box: processing returns
no error and does not include them, and they never appear in any filtered
result. -/
theorem filter_total_incomplete (south west north east : Rat) (el : Element)
    (h : el.type = none ∨
      (el.type = some "node" ∧ (el.lat = none ∨ el.lon = none)) ∨
      ((el.type = some "way" ∨ el.type = some "relation") ∧
        el.bounds = none ∧ el.geometry = none)) :
    processElement south west north east el = Except.ok (el, false) ∧
      filter_data_run south west north east [el] = Except.ok ([el], []) ∧
      (∀ els post filt,
        filter_data_run south west north east els = Except.ok (post, filt) →
        el ∉ filt) := by
  have hpe : processElement south west north east el = Except.ok (el, false) := by
    obtain ⟨ty, i, la, lo, tg, bd, ge, ms⟩ := el
    rcases h with h | ⟨h1, h2⟩ | ⟨h1, h2, h3⟩
    · subst h
      simp [processElement]
    · subst h1
      rcases h2 with h2 | h2
      · subst h2
        cases lo <;> simp [processElement]
      · subst h2
        cases la <;> simp [processElement]
    · subst h2
      subst h3
      rcases h1 with h1 | h1 <;> subst h1 <;> simp [processElement]
  refine ⟨hpe, by simp [filter_data_run, hpe], ?_⟩
  intro els post filt hrun hmem
  obtain ⟨src, hsrc, hps⟩ :=
    filter_data_run_source south west north east els post filt hrun el hmem
  rcases processElement_ok_true south west north east src el hps with
    ⟨hsty, hx, la, lo, hla, hlo, _⟩ | ⟨hsty, hap, hcase⟩
  · subst hx
    rcases h with h | ⟨h1, h2⟩ | ⟨h1, h2, h3⟩
    · rw [h] at hsty; cases hsty
    · rcases h2 with h2 | h2
      · rw [h2] at hla; cases hla
      · rw [h2] at hlo; cases hlo
    · rcases h1 with h1 | h1 <;> rw [h1] at hsty <;> simp at hsty
  · obtain ⟨h1, _, _, h4, _, hgeom⟩ := add_pota_preserves src el hap
    rcases h with h | ⟨hn1, _⟩ | ⟨_, hb2, hg3⟩
    · rw [h] at h1
      rcases hsty with h6 | h6 <;> rw [h6] at h1 <;> cases h1
    · rw [hn1] at h1
      rcases hsty with h6 | h6 <;> rw [h6] at h1 <;> simp at h1
    · rcases hcase with ⟨b, hbd, _⟩ | ⟨hbd, pts, hge, _⟩
      · rw [hb2, hbd] at h4; cases h4
      · rcases hgeom with h7 | ⟨v, pts2, h7, h8⟩
        · rw [hg3, hge] at h7; cases h7
        · rw [hg3] at h8; cases h8

/-- Witness for C10: the element with no `type` key is processed without
error and excluded. -/
theorem filter_total_incomplete_witness :
    processElement 0 0 1 1 untypedEl = Except.ok (untypedEl, false) :=
  (filter_total_incomplete 0 0 1 1 untypedEl (Or.inl rfl)).1

/-- C6: whenever the upstream Overpass fetch fails — network error
(`requests.get` raises), non-2xx status (`raise_for_status` raises for
4xx/5xx), or malformed body (`response.json()` raises) — the refresh tick
leaves the cached snapshot, the last-update timestamp and the refresh
counter unchanged; the `except RequestException` handler (server.py lines
104-105) only logs, so nothing propagates to a query-serving path (the
transition function is total). -/
theorem fetch_failure_preserves_cache (st : CacheState)
    (resp : Except String HttpResponse) (pota_data : Option OsmDoc)
    (now : Rat)
    (h : (∃ msg, resp = Except.error msg) ∨
      (∃ r, resp = Except.ok r ∧ 400 ≤ r.status_code) ∨
      (∃ r, resp = Except.ok r ∧ r.status_code < 400 ∧ r.json_body = none)) :
    (fetch_overpass_data st resp pota_data now).cached_data =
        st.cached_data ∧
      (fetch_overpass_data st resp pota_data now).last_cache_update =
        st.last_cache_update ∧
      (fetch_overpass_data st resp pota_data now).cache_refresh_count =
        st.cache_refresh_count := by
  have herr : ∃ msg, http_fetch_result resp = Except.error msg := by
    rcases h with ⟨msg, h1⟩ | ⟨r, h1, h2⟩ | ⟨r, h1, h2, h3⟩
    · subst h1
      exact ⟨msg, rfl⟩
    · subst h1
      refine ⟨"HTTPError", ?_⟩
      simp [http_fetch_result, raise_for_status, h2]
    · subst h1
      refine ⟨"JSONDecodeError", ?_⟩
      simp [http_fetch_result, raise_for_status, response_json, h3,
        Nat.not_le.mpr h2]
  obtain ⟨msg, hmsg⟩ := herr
  simp [fetch_overpass_data, hmsg]

/-- Witness for C6: a connection error leaves the concrete cache state
untouched. -/
theorem fetch_failure_preserves_cache_witness :
    (fetch_overpass_data stWitness (Except.error "ConnectionError") none
        2000).cached_data = stWitness.cached_data ∧
      (fetch_overpass_data stWitness (Except.error "ConnectionError") none
          2000).last_cache_update = stWitness.last_cache_update ∧
      (fetch_overpass_data stWitness (Except.error "ConnectionError") none
          2000).cache_refresh_count = stWitness.cache_refresh_count :=
  fetch_failure_preserves_cache stWitness (Except.error "ConnectionError")
    none 2000 (Or.inl ⟨"ConnectionError", rfl⟩)

/-- C4 counterexample: the claim says this Overpass query parses to the
bbox (35, -120, 36, -119), but `parse_query` takes the text between the
FIRST two parentheses (`query.split('(')[1]`, server.py line 163), which
for this query is `nwr["x"]` — not four floats — so parsing fails and
`None` is returned. -/
theorem parse_query_scenario3_fails :
    parse_query "[out:json];(nwr[\"x\"](35.0,-120.0,36.0,-119.0););out geom;" =
      none := by
  decide

/-- C4 amended: for the same bbox clause without the enclosing union
parentheses — so that the bbox group is the first parenthesized group —
`parse_query` succeeds and returns (south=35.0, west=-120.0, north=36.0,
east=-119.0). -/
theorem parse_query_unwrapped_succeeds :
    parse_query "nwr[\"x\"](35.0,-120.0,36.0,-119.0);out geom;" =
      some (35, -120, 36, -119) := by
  decide

/-- C9: `parse_query` fails by returning `None` — it never raises, both
`IndexError` and `ValueError` being caught at server.py lines 167-169 —
for every input whose (percent-decoded) parenthesized group is missing,
malformed, or whose comma-separated contents do not parse as exactly four
floats. -/
theorem parse_query_invalid_none (q : String)
    (h : query_parses_four q = false) : parse_query q = none := by
  unfold query_parses_four at h
  unfold parse_query
  cases hb : bboxPieces (unquote_if_encoded q.toList) with
  | none => simp [hb]
  | some pieces =>
    simp only [hb] at h
    simp only [hb]
    cases hp : parseFourFloats pieces with
    | none => rfl
    | some v => rw [hp] at h; simp at h

/-- Witness for C9: Scenario 4 — `parse_query("not a valid query")` has no
parenthesis group, so it fails with `None`. -/
theorem parse_query_invalid_none_witness :
    query_parses_four "not a valid query" = false ∧
      parse_query "not a valid query" = none :=
  ⟨by decide, parse_query_invalid_none "not a valid query" (by decide)⟩

theorem nodup_tail_filterMap (a : Element) (as : List Element)
    (hnd : ((a :: as).filterMap elemRef).Nodup) :
    (as.filterMap elemRef).Nodup := by
  cases haf : elemRef a with
  | none => rwa [List.filterMap_cons_none haf] at hnd
  | some r2 =>
    rw [List.filterMap_cons_some haf] at hnd
    exact hnd.of_cons

theorem nodup_ref_not_in_tail (a : Element) (as : List Element) (r : String)
    (hnd : ((a :: as).filterMap elemRef).Nodup) (ha : elemRef a = some r) :
    ∀ x ∈ as, elemRef x ≠ some r := by
  intro x hx hc
  rw [List.filterMap_cons_some ha] at hnd
  exact (List.nodup_cons.mp hnd).1 (List.mem_filterMap.mpr ⟨x, hx, hc⟩)

theorem countP_refEq_zero (l : List Element) (r : String)
    (h : ∀ x ∈ l, elemRef x ≠ some r) :
    l.countP (fun x => decide (elemRef x = some r)) = 0 := by
  induction l with
  | nil => rfl
  | cons a as ih =>
    have ha := h a (List.mem_cons_self a as)
    have htail := ih (fun x hx => h x (List.mem_cons_of_mem a hx))
    simp [List.countP_cons, ha, htail]

theorem countP_refEq_one (l : List Element) (r : String)
    (hnd : (l.filterMap elemRef).Nodup)
    (p : Element) (hp : p ∈ l) (hr : elemRef p = some r) :
    l.countP (fun x => decide (elemRef x = some r)) = 1 := by
  induction l with
  | nil => simp at hp
  | cons a as ih =>
    rcases List.mem_cons.mp hp with rfl | hp2
    · have hzero := countP_refEq_zero as r (nodup_ref_not_in_tail p as r hnd hr)
      simp [List.countP_cons, hr, hzero]
    · have hnd2 := nodup_tail_filterMap a as hnd
      cases haf : elemRef a with
      | none => simp [List.countP_cons, haf, ih hnd2 hp2]
      | some r2 =>
        have hr2 : ¬r2 = r := by
          intro hc
          subst hc
          exact nodup_ref_not_in_tail a as r2 hnd haf p hp2 hr
        simp [List.countP_cons, haf, hr2, ih hnd2 hp2]

theorem pota_names_lookup_none (l : List Element) (r : String)
    (h : ∀ x ∈ l, elemRef x ≠ some r) : pota_names_lookup l r = none := by
  induction l with
  | nil => rfl
  | cons a as ih =>
    have ha := h a (List.mem_cons_self a as)
    have htail := ih (fun x hx => h x (List.mem_cons_of_mem a hx))
    cases haf : elemRef a with
    | none => simp [pota_names_lookup, htail, haf]
    | some r2 =>
      have hne : ¬r2 = r := fun hc => ha (by rw [haf, hc])
      cases hnm : elemName a with
      | none => simp [pota_names_lookup, htail, haf, hnm]
      | some nm2 => simp [pota_names_lookup, htail, haf, hnm, hne]

theorem pota_names_lookup_eq (pes : List Element) (r nm : String)
    (hnd : (pes.filterMap elemRef).Nodup)
    (p : Element) (hp : p ∈ pes) (hr : elemRef p = some r)
    (hnm : elemName p = some nm) :
    pota_names_lookup pes r = some nm := by
  induction pes with
  | nil => simp at hp
  | cons a as ih =>
    rcases List.mem_cons.mp hp with rfl | hp2
    · have hnone :=
        pota_names_lookup_none as r (nodup_ref_not_in_tail p as r hnd hr)
      simp [pota_names_lookup, hnone, hr, hnm]
    · have htail := ih (nodup_tail_filterMap a as hnd) hp2
      simp [pota_names_lookup, htail]

theorem merge_keep_inv (pes : List Element) (e x : Element)
    (h : merge_keep pes e = some x) :
    ∃ r, elemRef e = some r ∧ elemRef x = some r ∧
      r ∈ pota_refs_of pes ∧
      ((x = e ∧ pota_names_lookup pes r = none) ∨
        ∃ t nm, e.tags = some t ∧ pota_names_lookup pes r = some nm ∧
          x = { e with tags := some (dictSet t "name" nm) }) := by
  unfold merge_keep at h
  cases htg : e.tags with
  | none => rw [htg] at h; simp at h
  | some t =>
    simp only [htg] at h
    cases hdg : dictGet t potaKey with
    | none => rw [hdg] at h; simp at h
    | some r =>
      simp only [hdg] at h
      by_cases hhas : listHas (pota_refs_of pes) r = true
      · rw [if_pos hhas] at h
        have hrefe : elemRef e = some r := by
          unfold elemRef
          simp only [htg]
          exact hdg
        refine ⟨r, hrefe, ?_, (listHas_iff _ _).mp hhas, ?_⟩
        · cases hpn : pota_names_lookup pes r with
          | none =>
            rw [hpn] at h
            simp only [Option.some.injEq] at h
            rw [← h]
            exact hrefe
          | some nm =>
            rw [hpn] at h
            simp only [Option.some.injEq] at h
            rw [← h]
            show dictGet (dictSet t "name" nm) potaKey = some r
            rw [dictGet_dictSet_ne t "name" potaKey nm (by decide)]
            exact hdg
        · cases hpn : pota_names_lookup pes r with
          | none =>
            rw [hpn] at h
            simp only [Option.some.injEq] at h
            exact Or.inl ⟨h.symm, rfl⟩
          | some nm =>
            rw [hpn] at h
            simp only [Option.some.injEq] at h
            exact Or.inr ⟨t, nm, rfl, rfl, h.symm⟩
      · rw [if_neg hhas] at h
        simp at h

theorem merge_keep_eq_named (pes : List Element) (e : Element)
    (t : List (String × String)) (htg : e.tags = some t) (r : String)
    (hdg : dictGet t potaKey = some r)
    (hhas : listHas (pota_refs_of pes) r = true)
    (nm : String) (hlu : pota_names_lookup pes r = some nm) :
    merge_keep pes e = some { e with tags := some (dictSet t "name" nm) } := by
  unfold merge_keep
  simp only [htg, hdg, if_pos hhas, hlu]

theorem countP_filter_of_imp (p q : Element → Bool) (l : List Element)
    (h : ∀ x ∈ l, p x = true → q x = true) :
    (l.filter q).countP p = l.countP p := by
  induction l with
  | nil => rfl
  | cons a as ih =>
    have htail := ih (fun x hx => h x (List.mem_cons_of_mem a hx))
    by_cases hpa : p a = true
    · have hqa := h a (List.mem_cons_self a as) hpa
      simp [List.filter_cons, hqa, List.countP_cons, hpa, htail]
    · by_cases hqa : q a = true
      · simp [List.filter_cons, hqa, List.countP_cons, hpa, htail]
      · simp [List.filter_cons, hqa, List.countP_cons, hpa, htail]

theorem merge_pota_data_elements (overpass pd : OsmDoc) (pes : List Element)
    (hpes : pd.elements = some pes) (hne : pes ≠ []) :
    (merge_pota_data overpass (some pd)).elements =
      some (merge_filtered (overpass.elements.getD []) pes ++
        merge_appended (overpass.elements.getD []) pes) := by
  cases pes with
  | nil => exact absurd rfl hne
  | cons p ps =>
    unfold merge_pota_data
    simp only [hpes]

/-- C2: merge dedup.  For a non-empty park feed with pairwise-distinct
references: (1) every Overpass element whose POTA reference is absent (no
reference tag, or a reference outside the feed's reference set) is absent
from the merged element list (server.py lines 50-59 retain only elements
with a known reference); (2) for every feed reference with no Overpass
element carrying it, exactly one element of the merged list carries that
reference — the synthetic feed node itself, which is appended at lines
67-71. -/
theorem merge_dedup (overpass pd : OsmDoc) (pes : List Element)
    (hpes : pd.elements = some pes) (hne : pes ≠ [])
    (hnd : (pes.filterMap elemRef).Nodup) :
    (∀ e ∈ overpass.elements.getD [], refAbsent pes e = true →
      e ∉ (merge_pota_data overpass (some pd)).elements.getD []) ∧
    (∀ p ∈ pes, ∀ r, elemRef p = some r →
      (∀ e ∈ overpass.elements.getD [], elemRef e ≠ some r) →
      ((merge_pota_data overpass (some pd)).elements.getD []).countP
          (fun x => decide (elemRef x = some r)) = 1 ∧
        p ∈ (merge_pota_data overpass (some pd)).elements.getD []) := by
  have helems : (merge_pota_data overpass (some pd)).elements.getD [] =
      merge_filtered (overpass.elements.getD []) pes ++
        merge_appended (overpass.elements.getD []) pes := by
    rw [merge_pota_data_elements overpass pd pes hpes hne]
    rfl
  rw [helems]
  constructor
  · intro e he habs hmem
    rcases List.mem_append.mp hmem with hmem2 | hmem2
    · obtain ⟨a, ha, hk⟩ := List.mem_filterMap.mp hmem2
      obtain ⟨r, hra, hre, hrin, _⟩ := merge_keep_inv pes a e hk
      unfold refAbsent at habs
      simp only [hre] at habs
      rw [(listHas_iff (pota_refs_of pes) r).mpr hrin] at habs
      cases habs
    · have he2 := List.mem_filter.mp (by
        unfold merge_appended at hmem2
        exact hmem2)
      cases hrf : elemRef e with
      | none =>
        have := he2.2
        simp only [hrf] at this
        cases this
      | some r2 =>
        have hrin : r2 ∈ pota_refs_of pes :=
          List.mem_filterMap.mpr ⟨e, he2.1, hrf⟩
        unfold refAbsent at habs
        simp only [hrf] at habs
        rw [(listHas_iff (pota_refs_of pes) r2).mpr hrin] at habs
        cases habs
  · intro p hp r hr hno
    have hrefs : r ∈ pota_refs_of pes := List.mem_filterMap.mpr ⟨p, hp, hr⟩
    have hnofilt : ∀ x ∈ merge_filtered (overpass.elements.getD []) pes,
        elemRef x ≠ some r := by
      intro x hx hc
      obtain ⟨a, ha, hk⟩ := List.mem_filterMap.mp hx
      obtain ⟨r2, hra, hre, _, _⟩ := merge_keep_inv pes a x hk
      have hr2 : r2 = r := by
        have := hre.symm.trans hc
        injection this
      subst hr2
      exact hno a ha hra
    have hc0 := countP_refEq_zero _ r hnofilt
    have hnotin : listHas
        (overpass_refs_of (overpass.elements.getD []) pes) r = false := by
      cases hx : listHas (overpass_refs_of (overpass.elements.getD []) pes) r with
      | false => rfl
      | true =>
        exfalso
        obtain ⟨x, hx2, hx3⟩ :=
          List.mem_filterMap.mp ((listHas_iff _ _).mp hx)
        exact hnofilt x hx2 hx3
    have hpmem : p ∈ merge_appended (overpass.elements.getD []) pes := by
      unfold merge_appended
      refine List.mem_filter.mpr ⟨hp, ?_⟩
      simp only [hr, hnotin]
      rfl
    constructor
    · rw [List.countP_append, hc0]
      have himp : ∀ x ∈ pes, decide (elemRef x = some r) = true →
          (fun e2 =>
            match elemRef e2 with
            | some r2 => !(listHas
                (overpass_refs_of (overpass.elements.getD []) pes) r2)
            | none => false) x = true := by
        intro x hx hpx
        simp only [decide_eq_true_eq] at hpx
        simp only [hpx, hnotin]
        rfl
      unfold merge_appended
      rw [countP_filter_of_imp _ _ pes himp,
        countP_refEq_one pes r hnd p hp hr]
    · exact List.mem_append.mpr (Or.inr hpmem)

/-- Witness for C2: with the feed holding only `US-3` and Overpass holding
only the `US-1` node, the `US-1` node is dropped, exactly one element with
reference `US-3` is present, and it is the synthetic feed node. -/
theorem merge_dedup_witness :
    oNode1 ∉ (merge_pota_data oDoc (some pDoc3)).elements.getD [] ∧
    ((merge_pota_data oDoc (some pDoc3)).elements.getD []).countP refEqUS3 = 1 ∧
    pNode3 ∈ (merge_pota_data oDoc (some pDoc3)).elements.getD [] := by
  have h := merge_dedup oDoc pDoc3 [pNode3] rfl (by decide) (by decide)
  exact ⟨h.1 oNode1 (by decide) (by decide),
    (h.2 pNode3 (List.mem_singleton.mpr rfl) "US-3" (by decide) (by decide)).1,
    (h.2 pNode3 (List.mem_singleton.mpr rfl) "US-3" (by decide) (by decide)).2⟩

/-- C7: merge name precedence.  When an Overpass element and a park-feed
record share reference `r` (feed references pairwise distinct) and the feed
record carries a non-empty name, an element with reference `r` survives the
merge and every merged element carrying `r` has its `name` tag overwritten
with the feed's name (server.py lines 56-58). -/
theorem merge_name_precedence (overpass pd : OsmDoc) (pes : List Element)
    (hpes : pd.elements = some pes)
    (hnd : (pes.filterMap elemRef).Nodup)
    (p : Element) (hp : p ∈ pes) (r nm : String)
    (hr : elemRef p = some r) (hnm : elemName p = some nm) (hnz : nm ≠ "")
    (e : Element) (he : e ∈ overpass.elements.getD [])
    (her : elemRef e = some r) :
    (∃ e2 ∈ (merge_pota_data overpass (some pd)).elements.getD [],
      elemRef e2 = some r) ∧
    (∀ e2 ∈ (merge_pota_data overpass (some pd)).elements.getD [],
      elemRef e2 = some r → elemName e2 = some nm) := by
  have hne : pes ≠ [] := by
    rintro rfl
    simp at hp
  have helems : (merge_pota_data overpass (some pd)).elements.getD [] =
      merge_filtered (overpass.elements.getD []) pes ++
        merge_appended (overpass.elements.getD []) pes := by
    rw [merge_pota_data_elements overpass pd pes hpes hne]
    rfl
  rw [helems]
  have hlu := pota_names_lookup_eq pes r nm hnd p hp hr hnm
  have hrefs : r ∈ pota_refs_of pes := List.mem_filterMap.mpr ⟨p, hp, hr⟩
  obtain ⟨t, htg, hdg⟩ : ∃ t, e.tags = some t ∧ dictGet t potaKey = some r := by
    unfold elemRef at her
    cases htg : e.tags with
    | none => rw [htg] at her; cases her
    | some t =>
      simp only [htg] at her
      exact ⟨t, rfl, her⟩
  have hkeep := merge_keep_eq_named pes e t htg r hdg
    ((listHas_iff _ _).mpr hrefs) nm hlu
  have hrenmem :
      ({ e with tags := some (dictSet t "name" nm) } : Element) ∈
        merge_filtered (overpass.elements.getD []) pes := by
    unfold merge_filtered
    exact List.mem_filterMap.mpr ⟨e, he, hkeep⟩
  have hrefren :
      elemRef ({ e with tags := some (dictSet t "name" nm) } : Element) =
        some r := by
    show dictGet (dictSet t "name" nm) potaKey = some r
    rw [dictGet_dictSet_ne t "name" potaKey nm (by decide)]
    exact hdg
  constructor
  · exact ⟨_, List.mem_append.mpr (Or.inl hrenmem), hrefren⟩
  · intro e2 hmem hre2
    rcases List.mem_append.mp hmem with hmem2 | hmem2
    · obtain ⟨a, ha, hk⟩ := List.mem_filterMap.mp hmem2
      obtain ⟨r2, hra, hre, hrin, hcase⟩ := merge_keep_inv pes a e2 hk
      have hr2 : r2 = r := by
        have h6 := hre.symm.trans hre2
        injection h6
      subst hr2
      rcases hcase with ⟨rfl, hlu2⟩ | ⟨t2, nm2, htg2, hlu2, rfl⟩
      · rw [hlu] at hlu2
        cases hlu2
      · have hnm2 : nm2 = nm := by
          have h6 := hlu.symm.trans hlu2
          injection h6 with h7
          exact h7.symm
        show dictGet (dictSet t2 "name" nm2) "name" = some nm
        rw [dictGet_dictSet_self t2 "name" nm2, hnm2]
    · exfalso
      unfold merge_appended at hmem2
      have hcond := (List.mem_filter.mp hmem2).2
      simp only [hre2] at hcond
      have hmem3 : r ∈ overpass_refs_of (overpass.elements.getD []) pes :=
        List.mem_filterMap.mpr ⟨_, hrenmem, hrefren⟩
      rw [(listHas_iff _ _).mpr hmem3] at hcond
      simp at hcond

/-- Witness for C7: the merged `US-1` element carries the feed name
`New Feed Name`, not the original OSM name. -/
theorem merge_name_precedence_witness :
    elemName mergedNode1 = some "New Feed Name" :=
  (merge_name_precedence oDoc pDoc1 [pNode1] rfl (by decide) pNode1
    (List.mem_singleton.mpr rfl) "US-1" "New Feed Name" (by decide)
    (by decide) (by decide) oNode1 (by decide) (by decide)).2
    mergedNode1 (by decide) (by decide)
